import Mathlib

/-!
Shallow embedding of the retrieval-and-filter core of the SHL assessment
recommender (src/queryprocessor.py and the `search` method of
src/embedding.py).

Strings are modelled as `List Char` (ASCII fragment: Python's `.lower()`,
`\w`, `\s`, `\d` are modelled on their ASCII behaviour, which is exact for
every string the repository manipulates).  The regex searches the code
performs are embedded directly by their leftmost-match semantics:

* `re.search(r"(\d+)", s)` — first maximal digit run (`firstNat`);
* `re.search(r"(\d+)\s*minutes", s)` — `bareMinutesSearch`;
* `re.search(r"(less than|max|maximum|under|within|up to)\s*(\d+)\s*min", s)`
  — `maxTimeSearch` (branches tried in order at each position, positions
  left to right; since `\s` and `\d` are disjoint and the following literal
  starts with a non-space non-digit character, the greedy-with-backtracking
  semantics coincides with "skip maximal spaces, read the maximal digit
  run");
* `re.search(rf"\b{tok}\b", s)` for a literal token — `searchB`, with `\b`
  the usual word-boundary assertion (`bAt`).

The vocabulary entry written `"c\+\+"` in the Python source is a regex
escape for the literal token `c++`; it is modelled by that literal.
-/

namespace SHL

abbrev Str := List Char

/-- Python `\s` (ASCII): space, tab, newline, carriage return, vertical tab,
form feed. -/
def isSpc (c : Char) : Bool :=
  c = ' ' || c = '\t' || c = '\n' || c = '\r' || c.toNat = 11 || c.toNat = 12

/-- Python `\w` (ASCII): letters, digits, underscore. -/
def wordChar (c : Char) : Bool :=
  c.isAlpha || c.isDigit || c = '_'

/-- Python `str.lower()` on the ASCII fragment. -/
def lowerStr (s : Str) : Str := s.map Char.toLower

/-- Numeric value of a digit run, as Python `int` reads it. -/
def digitVal (l : Str) : Nat :=
  l.foldl (fun acc c => acc * 10 + (c.toNat - 48)) 0

/-- `re.search(r"(\d+)", s)`: value of the first maximal digit run, if any. -/
def firstNat (s : Str) : Option Nat :=
  let r := s.dropWhile (fun c => !c.isDigit)
  let d := r.takeWhile Char.isDigit
  if d.isEmpty then none else some (digitVal d)

/-- Whether position `i` of `s` holds a word character (out of range: no). -/
def wcAt (s : Str) (i : Nat) : Bool :=
  match s.get? i with
  | some c => wordChar c
  | none => false

/-- Word-character-ness of the position just before `i` (start of string: no). -/
def preWC (s : Str) (i : Nat) : Bool :=
  if i = 0 then false else wcAt s (i - 1)

/-- The `\b` zero-width assertion at position `i` of `s`. -/
def bAt (s : Str) (i : Nat) : Bool :=
  preWC s i != wcAt s i

/-- The literal token `tok` occurs in `s` starting at position `i`. -/
def occursAt (s tok : Str) (i : Nat) : Bool :=
  tok.isPrefixOf (s.drop i)

/-- `re.search(rf"\b{tok}\b", s) is not None` for a literal token `tok`. -/
def searchB (s tok : Str) : Bool :=
  (List.range (s.length + 1)).any fun i =>
    occursAt s tok i && bAt s i && bAt s (i + tok.length)

/-- Python `needle in hay` on strings: substring containment. -/
def isSubstr (needle hay : Str) : Bool :=
  (List.range (hay.length + 1)).any fun i => needle.isPrefixOf (hay.drop i)

/-! ### The duration regexes of `extract_constraints` -/

def boundTokens : List Str :=
  (["less than", "max", "maximum", "under", "within", "up to"] :
    List String).map String.data

def minLit : Str := "min".data

def minutesLit : Str := "minutes".data

/-- One branch of the bounded-time pattern, anchored at the head of `s`:
the branch token, then `\s*(\d+)\s*min`; returns group 2. -/
def tokenNum (t s : Str) : Option Nat :=
  if t.isPrefixOf s then
    let r1 := (s.drop t.length).dropWhile isSpc
    let ds := r1.takeWhile Char.isDigit
    if ds.isEmpty then none
    else if minLit.isPrefixOf ((r1.drop ds.length).dropWhile isSpc) then
      some (digitVal ds)
    else none
  else none

/-- `re.search` of the bounded-time pattern over `s`: leftmost position,
branches in source order; returns group 2. -/
def maxTimeSearch (s : Str) : Option Nat :=
  (List.range (s.length + 1)).findSome? fun i =>
    boundTokens.findSome? fun t => tokenNum t (s.drop i)

/-- The pattern `(\d+)\s*minutes` anchored at the head of `s`; group 1. -/
def bareMinutesAt (s : Str) : Option Nat :=
  let ds := s.takeWhile Char.isDigit
  if ds.isEmpty then none
  else if minutesLit.isPrefixOf ((s.drop ds.length).dropWhile isSpc) then
    some (digitVal ds)
  else none

/-- `re.search(r"(\d+)\s*minutes", s)`: leftmost match, group 1. -/
def bareMinutesSearch (s : Str) : Option Nat :=
  (List.range (s.length + 1)).findSome? fun i => bareMinutesAt (s.drop i)

/-! ### Data model -/

/-- The fixed skill vocabulary of `extract_constraints` (the source text
`"c\+\+"` denotes the literal token `c++`). -/
def techSkills : List Str :=
  (["java", "python", "javascript", "js", "sql", "react", "angular",
    "node", "c++", "c#"] : List String).map String.data

/-- The fixed test-type vocabulary of `extract_constraints`. -/
def testTypes : List Str :=
  (["cognitive", "personality", "behavior", "situational", "technical",
    "coding"] : List String).map String.data

/-- The constraint dictionary built by `extract_constraints`: a key is
either absent (`none`) or present.  The code only ever stores non-empty
skill/test-type lists, but `filter_assessments` re-checks non-emptiness,
so the model allows any value. -/
structure Constraints where
  max_duration : Option Nat := none
  duration : Option Nat := none
  skills : Option (List Str) := none
  test_types : Option (List Str) := none
deriving DecidableEq

/-- An assessment record: a flat dict; every field the core reads is
optional (`dict.get` / `"k" in d`). -/
structure Assessment where
  name : Option Str := none
  url : Option Str := none
  description : Option Str := none
  duration : Option Str := none
  test_type : Option Str := none
deriving DecidableEq

/-! ### `QueryProcessor.extract_constraints` -/

def extract_constraints (query : Str) : Constraints :=
  let lq := lowerStr query
  let max_time_match := maxTimeSearch lq
  let time_match := bareMinutesSearch query
  let found_skills := techSkills.filter fun sk => searchB lq sk
  let found_types := testTypes.filter fun t => searchB lq t
  { max_duration := max_time_match
    duration :=
      match time_match with
      | some n => if max_time_match.isSome then none else some n
      | none => none
    skills := if found_skills.isEmpty then none else some found_skills
    test_types := if found_types.isEmpty then none else some found_types }

/-! ### `QueryProcessor.filter_assessments` -/

/-- Duration-stage predicate for `max_duration = d`:
`"duration" in a and re.search(r"(\d+)", a["duration"]) and int(...) <= d`. -/
def durLE (d : Nat) (a : Assessment) : Bool :=
  match a.duration with
  | some s =>
    match firstNat s with
    | some n => decide (n ≤ d)
    | none => false
  | none => false

/-- Duration-stage predicate for exact `duration = e`. -/
def durEQ (e : Nat) (a : Assessment) : Bool :=
  match a.duration with
  | some s =>
    match firstNat s with
    | some n => n == e
    | none => false
  | none => false

/-- Stage 1 of `filter_assessments` (the duration `if`/`elif`; a plain
comprehension, with no fallback). -/
def durationStage (assessments : List Assessment) (c : Constraints) :
    List Assessment :=
  match c.max_duration with
  | some d => assessments.filter (durLE d)
  | none =>
    match c.duration with
    | some e => assessments.filter (durEQ e)
    | none => assessments

/-- Whether any skill token matches as a whole word in the lowered name
or lowered description of the record. -/
def skillMatchA (sks : List Str) (a : Assessment) : Bool :=
  sks.any fun sk =>
    searchB (lowerStr (a.name.getD [])) sk ||
    searchB (lowerStr (a.description.getD [])) sk

/-- Stage 2 of `filter_assessments`: replace the working set with the skill
matches when that set is non-empty, otherwise keep the working set. -/
def skillsStage (filtered : List Assessment) (c : Constraints) :
    List Assessment :=
  match c.skills with
  | some sks =>
    if sks.isEmpty then filtered
    else
      let skill_matches := filtered.filter (skillMatchA sks)
      if skill_matches.isEmpty then filtered else skill_matches
  | none => filtered

/-- Whether any test-type token occurs as a substring of the lowered
`test_type` of the record or as a whole word in its lowered description. -/
def typeMatchA (tts : List Str) (a : Assessment) : Bool :=
  tts.any fun t =>
    isSubstr t (lowerStr (a.test_type.getD [])) ||
    searchB (lowerStr (a.description.getD [])) t

/-- Stage 3 of `filter_assessments`: same non-empty-replace / empty-keep
rule as stage 2, over test types. -/
def typeStage (filtered : List Assessment) (c : Constraints) :
    List Assessment :=
  match c.test_types with
  | some tts =>
    if tts.isEmpty then filtered
    else
      let type_matches := filtered.filter (typeMatchA tts)
      if type_matches.isEmpty then filtered else type_matches
  | none => filtered

def filter_assessments (assessments : List Assessment) (c : Constraints) :
    List Assessment :=
  typeStage (skillsStage (durationStage assessments c) c) c

/-! ### `EmbeddingEngine.search` and `QueryProcessor.process_query`

The collaborator call `self.collection.query(...)` is modelled by its
outcome: `Except.error msg` when the underlying index query raises,
`Except.ok none` when it returns no usable `metadatas`, and
`Except.ok (some ms)` when it returns metadata list `ms`.  The `try`/
`except` of `EmbeddingEngine.search` returns `[]` on both failure shapes. -/

def search (raw : Except Str (Option (List Assessment))) : List Assessment :=
  match raw with
  | Except.ok (some metadatas) => metadatas
  | Except.ok none => []
  | Except.error _ => []

def process_query (raw : Except Str (Option (List Assessment)))
    (query : Str) (max_results : Nat) : List Assessment :=
  let constraints := extract_constraints query
  let search_results := search raw
  let filtered_results := filter_assessments search_results constraints
  if filtered_results.isEmpty then search_results.take max_results
  else filtered_results.take max_results

/-- `process_query` viewed with its exception channel: the body performs no
raising operation (`search` catches internally), so the call always
returns normally. -/
def process_queryE (raw : Except Str (Option (List Assessment)))
    (query : Str) (max_results : Nat) : Except Str (List Assessment) :=
  Except.ok (process_query raw query max_results)

/-! ### Structural lemmas about the filter stages -/

lemma durationStage_sublist (as : List Assessment) (c : Constraints) :
    List.Sublist (durationStage as c) as := by
  unfold durationStage
  cases c.max_duration with
  | some d => exact List.filter_sublist as
  | none =>
    cases c.duration with
    | some e => exact List.filter_sublist as
    | none => exact List.Sublist.refl as

lemma skillsStage_sublist (l : List Assessment) (c : Constraints) :
    List.Sublist (skillsStage l c) l := by
  unfold skillsStage
  cases c.skills with
  | none => exact List.Sublist.refl l
  | some sks =>
    dsimp only
    split
    · exact List.Sublist.refl l
    · split
      · exact List.Sublist.refl l
      · exact List.filter_sublist l

lemma typeStage_sublist (l : List Assessment) (c : Constraints) :
    List.Sublist (typeStage l c) l := by
  unfold typeStage
  cases c.test_types with
  | none => exact List.Sublist.refl l
  | some tts =>
    dsimp only
    split
    · exact List.Sublist.refl l
    · split
      · exact List.Sublist.refl l
      · exact List.filter_sublist l

lemma skillsStage_ne_nil (l : List Assessment) (c : Constraints) (h : l ≠ []) :
    skillsStage l c ≠ [] := by
  unfold skillsStage
  cases c.skills with
  | none => exact h
  | some sks =>
    dsimp only
    split
    · exact h
    · split
      · exact h
      · next h2 =>
        intro hc
        rw [hc] at h2
        simp at h2

lemma typeStage_ne_nil (l : List Assessment) (c : Constraints) (h : l ≠ []) :
    typeStage l c ≠ [] := by
  unfold typeStage
  cases c.test_types with
  | none => exact h
  | some tts =>
    dsimp only
    split
    · exact h
    · split
      · exact h
      · next h2 =>
        intro hc
        rw [hc] at h2
        simp at h2

lemma durationStage_nil (c : Constraints) : durationStage [] c = [] := by
  unfold durationStage
  cases c.max_duration with
  | some d => rfl
  | none =>
    cases c.duration with
    | some e => rfl
    | none => rfl

lemma filter_assessments_nil (c : Constraints) : filter_assessments [] c = [] := by
  have h1 := durationStage_sublist [] c
  have h2 := skillsStage_sublist (durationStage [] c) c
  have h3 := typeStage_sublist (skillsStage (durationStage [] c) c) c
  have := List.Sublist.trans h3 (List.Sublist.trans h2 h1)
  exact List.sublist_nil.mp this

/-! ### Sample records and constraint sets used in concrete statements -/

/-- A record whose every field is absent. -/
def emptyRec : Assessment := {}

/-- A constraint set holding only a duration bound of 30 minutes. -/
def maxDur30 : Constraints := { max_duration := some 30 }

/-! ### Claims -/

/-- C1, counterexample: the duration stage has no fallback.  On the
non-empty input `[emptyRec]` (a record with no `duration` field) and the
constraint set `{max_duration: 30}`, `filter_assessments` returns the
empty list. -/
theorem C1_counterexample :
    ([emptyRec] : List Assessment) ≠ [] ∧
    filter_assessments [emptyRec] maxDur30 = [] := by
  decide

/-- C1 (amended): only the skills and test-type stages fall back; the
duration stage does not.  Whenever the duration stage leaves at least one
candidate (in particular whenever the input is non-empty and no duration
constraint is set), `filter_assessments` returns a non-empty list. -/
theorem C1_nonempty_after_duration_stage (as : List Assessment)
    (c : Constraints) (h : durationStage as c ≠ []) :
    filter_assessments as c ≠ [] := by
  unfold filter_assessments
  exact typeStage_ne_nil _ _ (skillsStage_ne_nil _ _ h)

/-- C1 witness: the amended theorem applied at a concrete non-empty input
with no duration constraint. -/
theorem C1_witness :
    durationStage [emptyRec] {} ≠ [] ∧
    filter_assessments [emptyRec] ({} : Constraints) ≠ [] :=
  ⟨by decide, C1_nonempty_after_duration_stage [emptyRec] {} (by decide)⟩

/-- C2, counterexample: `extract_constraints` is not fully
case-insensitive.  The queries "30 MINUTES" and "30 minutes" are letter-case
variants of each other, yet only the lower-case one sets the `duration`
field: the bare minutes pattern is matched against the raw query. -/
theorem C2_counterexample :
    lowerStr ("30 MINUTES".data) = lowerStr ("30 minutes".data) ∧
    (extract_constraints ("30 MINUTES".data)).duration ≠
      (extract_constraints ("30 minutes".data)).duration := by
  decide

/-- C2 (amended): matching is case-insensitive for the `max_duration`,
`skills` and `test_types` fields — any two queries with the same
lower-casing agree on those three fields — but the exact `duration` field
is matched case-sensitively against the raw query. -/
theorem C2_case_insensitive_except_duration (q q' : Str)
    (h : lowerStr q = lowerStr q') :
    (extract_constraints q).max_duration =
      (extract_constraints q').max_duration ∧
    (extract_constraints q).skills = (extract_constraints q').skills ∧
    (extract_constraints q).test_types =
      (extract_constraints q').test_types := by
  unfold extract_constraints
  rw [h]
  exact ⟨rfl, rfl, rfl⟩

/-- C2 witness: the amended theorem applied to "PYTHON Test" and
"python test". -/
theorem C2_witness :
    lowerStr ("PYTHON Test".data) = lowerStr ("python test".data) ∧
    ((extract_constraints ("PYTHON Test".data)).max_duration =
        (extract_constraints ("python test".data)).max_duration ∧
      (extract_constraints ("PYTHON Test".data)).skills =
        (extract_constraints ("python test".data)).skills ∧
      (extract_constraints ("PYTHON Test".data)).test_types =
        (extract_constraints ("python test".data)).test_types) :=
  ⟨by decide, C2_case_insensitive_except_duration
    ("PYTHON Test".data) ("python test".data) (by decide)⟩

/-- C3, counterexample: an index-layer error does not propagate out of
`process_query`.  With the underlying index query failing, the call
returns normally instead of re-raising the error. -/
theorem C3_counterexample :
    process_queryE (Except.error ("index unavailable".data))
        ("java test".data) 10 ≠
      Except.error ("index unavailable".data) := by
  simp [process_queryE]

/-- C3 (amended): `EmbeddingEngine.search` catches the index-layer error
itself and returns the empty list, so `process_query` performs local
recovery: it returns normally with an empty result for every query and
every `max_results`, and no index error reaches its caller. -/
theorem C3_search_catches_index_errors (msg q : Str) (k : Nat) :
    search (Except.error msg) = [] ∧
    process_queryE (Except.error msg) q k = Except.ok [] := by
  refine ⟨rfl, ?_⟩
  unfold process_queryE process_query
  dsimp only
  rw [show search (Except.error msg) = [] from rfl,
    filter_assessments_nil]
  simp

/-- C5: `max_duration` and `duration` are never both set — the exact
pattern only fires when the bounded pattern did not — and a query holding
both "under 20 minutes" and "30 minutes" yields exactly
`{max_duration: 20}` with `duration` absent. -/
theorem C5_mutual_exclusion :
    (∀ q : Str, ((extract_constraints q).max_duration.isSome &&
      (extract_constraints q).duration.isSome) = false) ∧
    extract_constraints ("under 20 minutes and 30 minutes".data) =
      { max_duration := some 20 } := by
  constructor
  · intro q
    unfold extract_constraints
    dsimp only
    cases hm : maxTimeSearch (lowerStr q) with
    | none => simp
    | some d =>
      cases bareMinutesSearch q with
      | none => simp
      | some n => simp
  · decide

/-- C8: `filter_assessments` returns an order-preserving subsequence of
its input — every output record occurs in the input, each input position
is used at most once, and relative order is preserved. -/
theorem C8_filter_is_sublist (as : List Assessment) (c : Constraints) :
    List.Sublist (filter_assessments as c) as := by
  unfold filter_assessments
  exact List.Sublist.trans
    (List.Sublist.trans
      (typeStage_sublist (skillsStage (durationStage as c) c) c)
      (skillsStage_sublist (durationStage as c) c))
    (durationStage_sublist as c)

/-- C9: `process_query` returns at most `max_results` records, for every
query, every `max_results`, and every outcome of the underlying search —
including searches returning fewer records than the fixed over-fetch —
and the call always returns normally rather than raising. -/
theorem C9_at_most_max_results (raw : Except Str (Option (List Assessment)))
    (q : Str) (k : Nat) :
    (process_query raw q k).length ≤ k ∧
    process_queryE raw q k = Except.ok (process_query raw q k) := by
  refine ⟨?_, rfl⟩
  unfold process_query
  dsimp only
  split
  · exact List.length_take_le k (search raw)
  · exact List.length_take_le k (filter_assessments (search raw)
      (extract_constraints q))

/-- C4: with `max_results ≥ 1`, the output of `process_query` is empty iff
the semantic search returned an empty list, and when filtering empties a
non-empty search result, the first `max_results` of the raw search results
are returned instead. -/
theorem C4_empty_iff_search_empty (q : Str) (k : Nat) (rs : List Assessment)
    (hk : 1 ≤ k) :
    (process_query (Except.ok (some rs)) q k = [] ↔ rs = []) ∧
    (filter_assessments rs (extract_constraints q) = [] →
      process_query (Except.ok (some rs)) q k = rs.take k) := by
  have hs : search (Except.ok (some rs)) = rs := rfl
  constructor
  · constructor
    · intro h
      unfold process_query at h
      rw [hs] at h
      by_cases hf :
          (filter_assessments rs (extract_constraints q)).isEmpty = true
      · rw [if_pos hf] at h
        rcases List.take_eq_nil_iff.mp h with h0 | h0
        · omega
        · exact h0
      · rw [if_neg hf] at h
        rcases List.take_eq_nil_iff.mp h with h0 | h0
        · omega
        · exact absurd (List.isEmpty_iff.mpr h0) hf
    · intro h
      subst h
      unfold process_query
      dsimp only
      rw [hs, filter_assessments_nil]
      simp
  · intro h
    unfold process_query
    dsimp only
    rw [hs, h]
    simp

/-- C4 witness: the theorem applied at a concrete query and search
outcome. -/
theorem C4_witness :
    1 ≤ 3 ∧
    ((process_query (Except.ok (some [emptyRec])) ("team lead".data) 3 = [] ↔
        ([emptyRec] : List Assessment) = []) ∧
      (filter_assessments [emptyRec]
          (extract_constraints ("team lead".data)) = [] →
        process_query (Except.ok (some [emptyRec])) ("team lead".data) 3 =
          ([emptyRec] : List Assessment).take 3)) :=
  ⟨by decide, C4_empty_iff_search_empty ("team lead".data) 3 [emptyRec]
    (by decide)⟩

/-- C6: with `max_duration = d` set, every record kept by the duration
stage has a `duration` field whose first parseable integer is ≤ d, and
every record whose `duration` field is absent or holds no parseable
integer is excluded by that stage. -/
theorem C6_duration_stage_bound (as : List Assessment) (d : Nat)
    (c : Constraints) (hc : c.max_duration = some d) :
    (∀ a ∈ durationStage as c, ∃ s n, a.duration = some s ∧
      firstNat s = some n ∧ n ≤ d) ∧
    (∀ a ∈ as,
      (a.duration = none ∨ ∃ s, a.duration = some s ∧ firstNat s = none) →
      a ∉ durationStage as c) := by
  unfold durationStage
  rw [hc]
  constructor
  · intro a ha
    rw [List.mem_filter] at ha
    have hp := ha.2
    unfold durLE at hp
    cases hs : a.duration with
    | none => rw [hs] at hp; simp at hp
    | some s =>
      rw [hs] at hp
      have hp2 : (match firstNat s with
        | some n => decide (n ≤ d)
        | none => false) = true := hp
      cases hn : firstNat s with
      | none => rw [hn] at hp2; simp at hp2
      | some n =>
        rw [hn] at hp2
        simp only [decide_eq_true_eq] at hp2
        exact ⟨s, n, rfl, hn, hp2⟩
  · intro a _ hbad hmem
    rw [List.mem_filter] at hmem
    have hp := hmem.2
    unfold durLE at hp
    rcases hbad with h0 | ⟨s, hs, hn⟩
    · rw [h0] at hp; simp at hp
    · rw [hs] at hp
      have hp2 : (match firstNat s with
        | some n => decide (n ≤ d)
        | none => false) = true := hp
      rw [hn] at hp2
      simp at hp2

/-- A record with a parseable 25-minute duration. -/
def dur25Rec : Assessment := { duration := some "25 minutes".data }

/-- A record whose duration text holds no integer. -/
def durBadRec : Assessment := { duration := some "unknown".data }

/-- C6 witness: the theorem applied at a concrete record list and bound. -/
theorem C6_witness :
    maxDur30.max_duration = some 30 ∧
    ((∀ a ∈ durationStage [dur25Rec, durBadRec] maxDur30, ∃ s n,
        a.duration = some s ∧ firstNat s = some n ∧ n ≤ 30) ∧
      (∀ a ∈ [dur25Rec, durBadRec],
        (a.duration = none ∨ ∃ s, a.duration = some s ∧ firstNat s = none) →
        a ∉ durationStage [dur25Rec, durBadRec] maxDur30)) :=
  ⟨rfl, C6_duration_stage_bound [dur25Rec, durBadRec] 30 maxDur30 rfl⟩

/-- C7: with a non-empty skills constraint, the skills stage keeps its
stage-1 input unchanged in content and order when no candidate matches any
skill token as a whole word in its lowered name or description, and
replaces the working set with exactly the matching candidates (in input
order) when at least one matches. -/
theorem C7_skills_stage_replace_or_keep (as : List Assessment)
    (sks : List Str) (c : Constraints) (hc : c.skills = some sks)
    (hne : sks ≠ []) :
    ((∀ a ∈ as, skillMatchA sks a = false) → skillsStage as c = as) ∧
    ((∃ a ∈ as, skillMatchA sks a = true) →
      skillsStage as c = as.filter (skillMatchA sks)) := by
  unfold skillsStage
  rw [hc]
  dsimp only
  rw [if_neg (by rw [List.isEmpty_iff]; exact hne)]
  constructor
  · intro h
    have hnil : as.filter (skillMatchA sks) = [] := by
      rw [List.filter_eq_nil_iff]
      intro a ha
      rw [h a ha]
      simp
    rw [hnil]
    simp
  · intro h
    obtain ⟨a, ha, hm⟩ := h
    have hmem : a ∈ as.filter (skillMatchA sks) :=
      List.mem_filter.mpr ⟨ha, hm⟩
    have hne2 : ¬(as.filter (skillMatchA sks)).isEmpty = true := by
      rw [List.isEmpty_iff]
      intro hnil
      rw [hnil] at hmem
      simp at hmem
    rw [if_neg hne2]

/-- A record mentioning java in its name and description. -/
def javaRec : Assessment :=
  { name := some "Java Coding Test".data
    description := some "A java coding assessment".data }

/-- The skills constraint set `{skills: [python]}`. -/
def pySkills : Constraints := { skills := some ["python".data] }

/-- C7 witness: the theorem applied at a concrete candidate list and
skills constraint under which no candidate matches. -/
theorem C7_witness :
    pySkills.skills = some ["python".data] ∧ (["python".data] : List Str) ≠ [] ∧
    (((∀ a ∈ [javaRec], skillMatchA ["python".data] a = false) →
        skillsStage [javaRec] pySkills = [javaRec]) ∧
      ((∃ a ∈ [javaRec], skillMatchA ["python".data] a = true) →
        skillsStage [javaRec] pySkills =
          List.filter (skillMatchA ["python".data]) [javaRec])) :=
  ⟨rfl, by decide,
    C7_skills_stage_replace_or_keep [javaRec] ["python".data] pySkills rfl
      (by decide)⟩

/-- The literal token `c++` from the skill vocabulary. -/
def cppTok : Str := "c++".data

lemma occursAt_cpp_shape (s : Str) (i : Nat)
    (h : occursAt s cppTok i = true) :
    ∃ t, s.drop i = 'c' :: '+' :: '+' :: t := by
  unfold occursAt at h
  have hpre : cppTok <+: s.drop i := List.isPrefixOf_iff_prefix.mp h
  obtain ⟨t, ht⟩ := hpre
  exact ⟨t, by rw [← ht]; rfl⟩

lemma occursAt_cpp_plus (s : Str) (i : Nat)
    (h : occursAt s cppTok i = true) : s.get? (i + 2) = some '+' := by
  obtain ⟨t, ht⟩ := occursAt_cpp_shape s i h
  have h2 : (s.drop i)[2]? = some '+' := by rw [ht]; simp
  rw [List.getElem?_drop] at h2
  rw [List.get?_eq_getElem?]
  exact h2

lemma occursAt_cpp_len (s : Str) (i : Nat)
    (h : occursAt s cppTok i = true) : i + 3 ≤ s.length := by
  obtain ⟨t, ht⟩ := occursAt_cpp_shape s i h
  have hlen : s.length - i = t.length + 3 := by
    have := List.length_drop i s
    rw [ht] at this
    simp at this
    omega
  have hle : i ≤ s.length := by
    by_contra hgt
    rw [List.drop_eq_nil_of_le (by omega)] at ht
    exact List.noConfusion ht
  omega

lemma searchB_cpp_wc (s : Str) (h : searchB s cppTok = true) :
    ∃ i, occursAt s cppTok i = true ∧ wcAt s (i + 3) = true := by
  unfold searchB at h
  rw [List.any_eq_true] at h
  obtain ⟨i, _, hcond⟩ := h
  rw [Bool.and_eq_true, Bool.and_eq_true] at hcond
  obtain ⟨⟨hocc, _⟩, hb2⟩ := hcond
  refine ⟨i, hocc, ?_⟩
  have hplus : s.get? (i + 2) = some '+' := occursAt_cpp_plus s i hocc
  have hw2 : wcAt s (i + 2) = false := by
    unfold wcAt
    rw [hplus]
    rfl
  have hlen3 : i + cppTok.length = i + 3 := rfl
  rw [hlen3] at hb2
  unfold bAt preWC at hb2
  rw [if_neg (by omega)] at hb2
  have hsub : i + 3 - 1 = i + 2 := by omega
  rw [hsub, hw2] at hb2
  cases hwc : wcAt s (i + 3) with
  | false => rw [hwc] at hb2; simp at hb2
  | true => rfl

/-- C10: the trailing word boundary of the `c++` vocabulary entry can only
be satisfied when `c++` is immediately followed by a letter, digit, or
underscore; hence for every query in which each occurrence of `c++` (in
the lowered query) is followed by a non-word character or the end of the
string, `extract_constraints` does not include `c++` in the returned
skills. -/
theorem C10_cpp_boundary (q : Str)
    (h : ∀ i < (lowerStr q).length, occursAt (lowerStr q) cppTok i = true →
      wcAt (lowerStr q) (i + 3) = false) :
    ∀ l, (extract_constraints q).skills = some l → cppTok ∉ l := by
  intro l hl hmem
  have hl' : l = techSkills.filter fun sk => searchB (lowerStr q) sk := by
    unfold extract_constraints at hl
    dsimp only at hl
    split at hl
    · exact absurd hl (by simp)
    · exact (Option.some.inj hl).symm
  rw [hl', List.mem_filter] at hmem
  have hsb : searchB (lowerStr q) cppTok = true := hmem.2
  obtain ⟨i, hocc, hwc⟩ := searchB_cpp_wc (lowerStr q) hsb
  have hlen : i + 3 ≤ (lowerStr q).length := occursAt_cpp_len _ _ hocc
  have hfalse := h i (by omega) hocc
  rw [hfalse] at hwc
  exact Bool.false_ne_true hwc

/-- C10 witness: the theorem applied to the query "c++ developer", where
the single occurrence of `c++` is followed by a space. -/
theorem C10_witness :
    (∀ i < (lowerStr ("c++ developer".data)).length,
      occursAt (lowerStr ("c++ developer".data)) cppTok i = true →
      wcAt (lowerStr ("c++ developer".data)) (i + 3) = false) ∧
    (∀ l, (extract_constraints ("c++ developer".data)).skills = some l →
      cppTok ∉ l) :=
  ⟨by decide, C10_cpp_boundary ("c++ developer".data) (by decide)⟩

end SHL
